import Mathlib

/-!
# Verification of the accessviz globe application core

A shallow embedding of `src/web/app.js` (the filtering/time-range variant,
which supersedes the near-duplicate first app file): the aggregation and
filter pipeline (`aggregateIps`, `hitMatchesFilters`, `applyFilters`), the
view-transform controller (`enableDrag`, `enableZoom`, `animate`,
`setupProjection`, the projection-change handler in `load`), the point
drawing layer (`drawPoints`) and the time-range control normalization
(`updateTimeFromInputs`).

Conventions of the embedding:
* JavaScript numbers that can be `NaN` (parsed timestamps, `Number(...)` of
  a control value) are modelled by `JsNum`; finite timestamp values are
  `Int` milliseconds.
* Screen/geometry arithmetic is over `ℚ` (the source works in IEEE doubles;
  the claims under study are about exact algebraic structure, stated over
  exact arithmetic).
* A JavaScript `Map` keyed by strings is modelled as a list of entries with
  update-in-place-at-first-occurrence and append-on-new-key semantics,
  which is exactly the observable behaviour (insertion order, unique keys)
  of `Map.get`/`Map.set` as used in `aggregateIps`.
* Optional/absent string fields (`h.country`, `h.city`, ...) are
  `Option String`; JavaScript falsiness of the empty string is identified
  with `none` (the data generator emits absent fields, and `'' || x`
  behaves as absent).
* The d3 projection library is external to the repository.  A d3 projection
  maps a geographic coordinate `g` to
  `translate + scale • raw(g)` for a projection-specific raw map; the
  embedding keeps the raw map abstract (a function parameter) and models
  exactly the `translate`/`scale` plumbing that `setupProjection` performs
  (`translate = (width/2 + panX, height/2 + panY)`,
  `scale = radius × projectionScale[name] × zoom`).
-/

set_option maxHeartbeats 1000000

namespace AccessViz

/-- A JavaScript number that may be `NaN` (e.g. the result of
`Date.parse` on an unparseable string, or `Number('')`). -/
inductive JsNum where
  | nan : JsNum
  | num : Int → JsNum
  deriving DecidableEq, Repr

/-- JavaScript truthiness of a number: `NaN` and `0` are falsy,
every other number is truthy.  This is the test `h._ts && ...` performs. -/
def tsTruthy : JsNum → Bool
  | .nan => false
  | .num n => n != 0

/-- JavaScript `<` between a possibly-NaN number and a plain number:
any comparison with `NaN` is `false`. -/
def jsLtInt : JsNum → Int → Bool
  | .nan, _ => false
  | .num a, b => a < b

/-- JavaScript `>` between a possibly-NaN number and a plain number. -/
def jsGtInt : JsNum → Int → Bool
  | .nan, _ => false
  | .num a, b => b < a

/-- `clamp = (v, min, max) => Math.max(min, Math.min(max, v))` from app.js. -/
def clampQ (v lo hi : ℚ) : ℚ := max lo (min hi v)

/-- Whether the character list `pat` is a prefix of `l`
(string search helper for the free-text filter). -/
def charsLeadWith : List Char → List Char → Bool
  | [], _ => true
  | _ :: _, [] => false
  | a :: p, b :: l => a == b && charsLeadWith p l

/-- Whether `pat` occurs contiguously somewhere in `l`. -/
def charsContain (l pat : List Char) : Bool :=
  charsLeadWith pat l ||
    match l with
    | [] => false
    | _ :: rest => charsContain rest pat

/-- JavaScript `hay.includes(q)`: substring containment. -/
def strIncludes (hay q : String) : Bool := charsContain hay.toList q.toList

/-- An event record (`h` in app.js), as loaded by `load`:
the raw fields of a hit from `data.json` plus the derived `_ts`
(`Date.parse(h.ts)`).  `ts` is the timestamp value carried verbatim into
`first_seen`/`last_seen` by the aggregator; it is modelled by its time
value (an integer), `_ts` by a possibly-NaN number.  The `status` field is
display-only and not modelled. -/
structure Hit where
  ip : String
  ts : Int
  tsP : JsNum
  country : Option String
  city : Option String
  ua_type : Option String
  path : Option String
  request : Option String
  lat : Option ℚ
  lon : Option ℚ
  deriving DecidableEq, Repr

/-- The `currentFilters` state object: free text, three category selectors
(`'all'` or a value), and the inclusive time range bounds
(`null` until the dataset loads). -/
structure Filters where
  text : String
  country : String
  city : String
  device : String
  startTs : Option Int
  endTs : Option Int
  deriving DecidableEq, Repr

/-- The text haystack of `hitMatchesFilters`:
`` `${h.ip} ${h.country || ''} ${h.city || ''} ${h.ua_type || ''} ${h.path || ''} ${h.request || ''}`.toLowerCase() ``. -/
def hitHay (h : Hit) : String :=
  (h.ip ++ " " ++ h.country.getD "" ++ " " ++ h.city.getD "" ++ " "
    ++ h.ua_type.getD "" ++ " " ++ h.path.getD "" ++ " "
    ++ h.request.getD "").toLower

/-- Clause (line 299): the trimmed lowercased query, when non-empty, must be
a substring of the haystack. -/
def textOk (f : Filters) (h : Hit) : Bool :=
  let q := f.text.trim.toLower
  !(q != "" && !strIncludes (hitHay h) q)

/-- One categorical clause (lines 300-302): selector is `'all'` or equals the
field case-insensitively (absent field compares as the empty string). -/
def catOk (sel : String) (field : Option String) : Bool :=
  !(sel != "all" && (field.getD "").toLower != sel.toLower)

/-- Clause (line 303): reject when a start bound is set, `h._ts` is truthy
and `h._ts < startTs`. -/
def timeLowOk (f : Filters) (h : Hit) : Bool :=
  match f.startTs with
  | none => true
  | some s => !(tsTruthy h.tsP && jsLtInt h.tsP s)

/-- Clause (line 304): reject when an end bound is set, `h._ts` is truthy
and `h._ts > endTs`. -/
def timeHighOk (f : Filters) (h : Hit) : Bool :=
  match f.endTs with
  | none => true
  | some e => !(tsTruthy h.tsP && jsGtInt h.tsP e)

/-- The inclusive time-range predicate of `hitMatchesFilters`
(the conjunction of its two timestamp clauses). -/
def timeOk (f : Filters) (h : Hit) : Bool := timeLowOk f h && timeHighOk f h

/-- `hitMatchesFilters(h, filters)` (lines 296-306): the early-return chain
is the conjunction of its clauses, in source order. -/
def hitMatchesFilters (h : Hit) (f : Filters) : Bool :=
  textOk f h && catOk f.country h.country && catOk f.city h.city
    && catOk f.device h.ua_type && timeLowOk f h && timeHighOk f h

/-- `allHits.filter((h) => hitMatchesFilters(h, currentFilters))`
from `applyFilters` (line 397). -/
def filteredHits (hits : List Hit) (f : Filters) : List Hit :=
  hits.filter (fun h => hitMatchesFilters h f)

/-- A per-IP summary entry, as built by `aggregateIps` (lines 87-113). -/
structure IpEntry where
  ip : String
  count : Nat
  first_seen : Int
  last_seen : Int
  country : Option String
  city : Option String
  lat : Option ℚ
  lon : Option ℚ
  ua_type : Option String
  deriving DecidableEq, Repr

/-- The default entry `map.get(h.ip) || { ... }` built when the key is new
(lines 90-100), before the per-hit mutations are applied. -/
def freshEntry (h : Hit) : IpEntry :=
  { ip := h.ip, count := 0, first_seen := h.ts, last_seen := h.ts,
    country := h.country, city := h.city, lat := h.lat, lon := h.lon,
    ua_type := h.ua_type }

/-- The body of the `aggregateIps` loop applied to an entry (lines 101-109):
increment the count, overwrite `last_seen` with the hit's timestamp, and
fill each still-empty attribute from the hit (first non-empty wins; the
coordinate pair is only taken together). -/
def updateEntry (e : IpEntry) (h : Hit) : IpEntry :=
  { e with
    count := e.count + 1,
    last_seen := h.ts,
    country := if e.country = none then h.country else e.country,
    city := if e.city = none then h.city else e.city,
    lat := if (e.lat = none ∨ e.lon = none) ∧ h.lat ≠ none ∧ h.lon ≠ none
           then h.lat else e.lat,
    lon := if (e.lat = none ∨ e.lon = none) ∧ h.lat ≠ none ∧ h.lon ≠ none
           then h.lon else e.lon,
    ua_type := if e.ua_type = none then h.ua_type else e.ua_type }

/-- One iteration of the `aggregateIps` loop on the `Map` (modelled as an
entry list in insertion order): update the entry at the hit's key in place,
or append a fresh updated entry when the key is new
(`map.get`/mutate/`map.set`). -/
def mapUpd : List IpEntry → Hit → List IpEntry
  | [], h => [updateEntry (freshEntry h) h]
  | e :: rest, h =>
    if e.ip = h.ip then updateEntry e h :: rest else e :: mapUpd rest h

/-- `aggregateIps(hits)` (lines 87-113): fold the loop body over the hits,
then read the map's values in insertion order. -/
def aggregateIps (hits : List Hit) : List IpEntry :=
  hits.foldl mapUpd []

/-- Look up the summary entry for a key (first occurrence; keys are unique
by construction of `mapUpd`). -/
def findEntry : List IpEntry → String → Option IpEntry
  | [], _ => none
  | e :: rest, k => if e.ip = k then some e else findEntry rest k

/-- `sum(summary.count for summary in ...)`. -/
def sumCounts (l : List IpEntry) : Nat := (l.map (·.count)).sum

/-- `applyFilters` (line 398-399): the summary list for the current filter
state, and the subset with defined coordinates kept as draw points. -/
def ipSummaryFor (hits : List Hit) (f : Filters) : List IpEntry :=
  aggregateIps (filteredHits hits f)

/-! ## View-transform controller -/

/-- The three projection names offered by the projection selector. -/
inductive ProjName where
  | orthographic : ProjName
  | mercator : ProjName
  | vanDerGrinten : ProjName
  deriving DecidableEq, Repr

/-- The per-projection nominal scale multiplier `projectionScale`
(lines 28-32). -/
def projectionScale : ProjName → ℚ
  | .orthographic => 1
  | .mercator => 11 / 20
  | .vanDerGrinten => 11 / 20

/-- Drag mode of `enableDrag`. -/
inductive DragMode where
  | rotate : DragMode
  | pan : DragMode
  deriving DecidableEq, Repr

/-- The mutable view state of app.js: projection selection and the
`allowRotation` flag maintained by `setupProjection`, rotation/zoom/pan,
and the drag bookkeeping of `enableDrag`. -/
structure ViewState where
  projectionName : ProjName
  allowRotation : Bool
  rotation : ℚ
  zoom : ℚ
  panX : ℚ
  panY : ℚ
  dragging : Bool
  dragMode : DragMode
  lastPos : Option (ℚ × ℚ)
  deriving DecidableEq, Repr

/-- The state effect of `setupProjection` (lines 158-184): rebuild the
projection (its translate/scale are derived functionally in `screenPos`
below) and set `allowRotation` to `true` exactly for the orthographic
branch, `false` for the two cylindrical-family branches. -/
def setupProjection (s : ViewState) : ViewState :=
  { s with allowRotation :=
      match s.projectionName with
      | .mercator => false
      | .vanDerGrinten => false
      | .orthographic => true }

/-- A projection maps a geographic coordinate to
`translate + scale • raw(g)` where `setupProjection` supplies
`translate = (width/2 + panX, height/2 + panY)` and
`scale = radius × projectionScale[name] × zoom` (lines 159-164).  The raw
map `F` (one per projection family, rotation baked in for the orthographic
case) lives in d3 and is kept abstract. -/
def screenPos (F : ProjName → ℚ × ℚ → ℚ × ℚ) (w h r : ℚ) (s : ViewState)
    (g : ℚ × ℚ) : ℚ × ℚ :=
  let scaled := r * projectionScale s.projectionName * s.zoom
  let raw := F s.projectionName g
  (w / 2 + s.panX + scaled * raw.1, h / 2 + s.panY + scaled * raw.2)

/-- The wheel handler of `enableZoom` (lines 450-472): multiply the zoom by
0.9 (scroll out) or 1.1 (scroll in), clamp to `[0.5, 6]`, and shift the pan
offset by `-cursorOffsetFromCenter × (scaleChange - 1)`; `(cx, cy)` is the
cursor in canvas coordinates. -/
def wheelStep (w h : ℚ) (s : ViewState) (deltaY cx cy : ℚ) : ViewState :=
  let factor : ℚ := if deltaY > 0 then 9 / 10 else 11 / 10
  let centerX := w / 2 + s.panX
  let centerY := h / 2 + s.panY
  let dx := cx - centerX
  let dy := cy - centerY
  let prevZoom := s.zoom
  let nextZoom := clampQ (s.zoom * factor) (1 / 2) 6
  let scaleChange := nextZoom / prevZoom
  setupProjection
    { s with panX := s.panX - dx * (scaleChange - 1),
             panY := s.panY - dy * (scaleChange - 1),
             zoom := nextZoom }

/-- `onDown` of `enableDrag` (lines 419-423): choose the drag mode (pan
when rotation is not allowed or shift is held, otherwise rotate), set
`dragging` and record the pointer position. -/
def onDown (s : ViewState) (shift : Bool) (x y : ℚ) : ViewState :=
  { s with
    dragMode := if !s.allowRotation then .pan
                else if shift then .pan else .rotate,
    dragging := true,
    lastPos := some (x, y) }

/-- `onMove` of `enableDrag` (lines 424-440): while dragging, accumulate
the pointer delta into the rotation angle (rotate mode, sensitivity 0.3)
or into the pan offset (pan mode, which also rebuilds the projection),
then record the new position. -/
def onMove (s : ViewState) (x y : ℚ) : ViewState :=
  if !s.dragging then s
  else
    match s.lastPos with
    | none => s
    | some (lx, ly) =>
      let dx := x - lx
      let dy := y - ly
      let s' :=
        if s.allowRotation && s.dragMode = .rotate then
          { s with rotation := s.rotation + dx * (3 / 10) }
        else
          setupProjection { s with panX := s.panX + dx, panY := s.panY + dy }
      { s' with lastPos := some (x, y) }

/-- `onUp` of `enableDrag` (line 441). -/
def onUp (s : ViewState) : ViewState := { s with dragging := false }

/-- The idle-rotation part of `animate` (lines 267-274): advance the
rotation by 0.05 and wrap, only when not dragging and rotation is
allowed. -/
def animateTick (s : ViewState) : ViewState :=
  if !s.dragging && s.allowRotation then
    { s with rotation :=
        let r := s.rotation + 1 / 20
        if r ≥ 180 then r - 360 else r }
  else s

/-- The projection-selector change handler in `load` (lines 523-531):
switch the projection and reset rotation, zoom and pan, then rebuild the
projection. -/
def projChange (s : ViewState) (name : ProjName) : ViewState :=
  setupProjection
    { s with projectionName := name, rotation := 0, zoom := 1,
             panX := 0, panY := 0 }

/-! ## Point drawing layer -/

/-- A JavaScript floating value classified by `Number.isFinite`: either a
finite value or a non-finite one (`NaN`, `±Infinity`).  Projected screen
coordinates can be non-finite at projection domain edges. -/
inductive JVal where
  | fin : ℚ → JVal
  | undef : JVal
  deriving DecidableEq, Repr

/-- `Number.isFinite`. -/
def JVal.isFinite : JVal → Bool
  | .fin _ => true
  | .undef => false

/-- A draw primitive emitted by `drawPoints`: a filled arc at `(x, y)` with
the given radius. -/
structure DrawCmd where
  x : ℚ
  y : ℚ
  size : ℚ
  deriving DecidableEq, Repr

/-- One iteration of the `drawPoints` loop (lines 229-249) on a summary
point.  `rotator` is d3's `geoRotation(projection.rotate())` applied to
`[lon, lat]` (kept abstract; its first component is the rotated
longitude), `proj` the active projection's coordinate map (abstract;
`none` models a `null` return, non-finite components model domain-edge
overflow).  Returns the emitted primitive, or `none` when the point is
skipped: missing coordinates, back-of-globe culling under the
orthographic projection (`|rotated[0]| > 90`), a `null` projection result,
or non-finite projected coordinates. -/
def drawPoint (name : ProjName) (rotator : ℚ × ℚ → ℚ × ℚ)
    (proj : ℚ × ℚ → Option (JVal × JVal)) (p : IpEntry) : Option DrawCmd :=
  match p.lat, p.lon with
  | some la, some lo =>
    if name = .orthographic ∧ |(rotator (lo, la)).1| > 90 then none
    else
      match proj (lo, la) with
      | none => none
      | some (.fin x, .fin y) =>
        some { x := x, y := y,
               size := 1 + min (if p.count = 0 then 1 else p.count) 10 * (1 / 10) }
      | some _ => none
  | _, _ => none

/-- `drawPoints` (lines 227-250): the primitives of the points layer of one
frame, in point order. -/
def drawPoints (name : ProjName) (rotator : ℚ × ℚ → ℚ × ℚ)
    (proj : ℚ × ℚ → Option (JVal × JVal)) (points : List IpEntry) :
    List DrawCmd :=
  points.filterMap (drawPoint name rotator proj)

/-! ## Time-range controls -/

/-- `updateTimeFromInputs` (lines 532-548): read the two control values
(possibly `NaN` for a non-numeric value), fall back to the domain bounds,
swap when reversed, and store into `(currentFilters.startTs,
currentFilters.endTs)`. -/
def updateTimeFromInputs (startIn endIn : JsNum) (dmin dmax : Int) :
    Int × Int :=
  let startVal := match startIn with | .nan => dmin | .num v => v
  let endVal := match endIn with | .nan => dmax | .num v => v
  if startVal > endVal then (endVal, startVal) else (startVal, endVal)

/-! ## Event sequences -/

/-- A pointer/animation event while one projection stays active
(the inputs of `enableDrag` and the `animate` tick). -/
inductive PEvent where
  | down (shift : Bool) (x y : ℚ) : PEvent
  | move (x y : ℚ) : PEvent
  | up : PEvent
  | tick : PEvent
  deriving DecidableEq, Repr

/-- Step of the pointer/animation machine. -/
def pStep (s : ViewState) : PEvent → ViewState
  | .down shift x y => onDown s shift x y
  | .move x y => onMove s x y
  | .up => onUp s
  | .tick => animateTick s

/-- A zoom-relevant event: a wheel gesture or a projection-selector
change. -/
inductive ZEvent where
  | wheel (deltaY cx cy : ℚ) : ZEvent
  | seltProj (name : ProjName) : ZEvent
  deriving DecidableEq, Repr

/-- Step of the zoom machine (`w`, `h` the canvas size). -/
def zStep (w h : ℚ) (s : ViewState) : ZEvent → ViewState
  | .wheel deltaY cx cy => wheelStep w h s deltaY cx cy
  | .seltProj name => projChange s name

/-! ## Derived spec-side helpers and concrete sample data -/

/-- The hits of the input list carrying a given identity key, in input
order. -/
def keyHits (hits : List Hit) (k : String) : List Hit :=
  hits.filter (fun h => h.ip = k)

/-- `applyHit o h`: the entry stored for `h.ip` after processing `h`, given
the previously stored entry (`map.get(h.ip) || { ...defaults }` followed by
the loop body). -/
def applyHit (o : Option IpEntry) (h : Hit) : IpEntry :=
  match o with
  | some e => updateEntry e h
  | none => updateEntry (freshEntry h) h

/-- A hit with only the fields of interest set. -/
def mkHit (ip : String) (ts : Int) (tsP : JsNum) (country : Option String) :
    Hit :=
  { ip := ip, ts := ts, tsP := tsP, country := country, city := none,
    ua_type := none, path := none, request := none, lat := none, lon := none }

/-- The concrete scenario of the spec: three records for `1.2.3.4` at times
1 < 2 < 3 with country `US`, one record for `5.6.7.8` at time 2 with
country `DE`. -/
def demoHits : List Hit :=
  [mkHit "1.2.3.4" 1 (.num 1) (some "US"),
   mkHit "1.2.3.4" 2 (.num 2) (some "US"),
   mkHit "1.2.3.4" 3 (.num 3) (some "US"),
   mkHit "5.6.7.8" 2 (.num 2) (some "DE")]

/-- The summary entry the aggregator computes for `1.2.3.4` on
`demoHits`. -/
def demoEntry : IpEntry :=
  { ip := "1.2.3.4", count := 3, first_seen := 1, last_seen := 3,
    country := some "US", city := none, lat := none, lon := none,
    ua_type := none }

/-- An unconstrained filter state (the defaults of `currentFilters` before
the dataset loads). -/
def openFilters : Filters :=
  { text := "", country := "all", city := "all", device := "all",
    startTs := none, endTs := none }

/-- Two records with the same key whose timestamps arrive in decreasing
order — the aggregation counterexample input. -/
def cexHits : List Hit :=
  [mkHit "9.9.9.9" 5 (.num 5) none, mkHit "9.9.9.9" 3 (.num 3) none]

/-- The initial view state of app.js (lines 26-56): orthographic
projection, rotation allowed, zoom 1, no pan, idle. -/
def initView : ViewState :=
  { projectionName := .orthographic, allowRotation := true, rotation := 0,
    zoom := 1, panX := 0, panY := 0, dragging := false,
    dragMode := .rotate, lastPos := none }

/-! ## Aggregation lemmas -/

theorem sumCounts_nil : sumCounts [] = 0 := rfl

theorem sumCounts_cons (e : IpEntry) (l : List IpEntry) :
    sumCounts (e :: l) = e.count + sumCounts l := by
  simp [sumCounts]

/-- Each loop iteration of `aggregateIps` increases the total count by
exactly one: either the matched entry's count is incremented, or a fresh
entry with count 1 is appended. -/
theorem sumCounts_mapUpd (acc : List IpEntry) (h : Hit) :
    sumCounts (mapUpd acc h) = sumCounts acc + 1 := by
  induction acc with
  | nil => simp [mapUpd, sumCounts, updateEntry, freshEntry]
  | cons e rest ih =>
    by_cases hc : e.ip = h.ip
    · simp [mapUpd, hc, sumCounts_cons, updateEntry]
      omega
    · simp [mapUpd, hc, sumCounts_cons, ih]
      omega

theorem sumCounts_foldl (l : List Hit) (acc : List IpEntry) :
    sumCounts (l.foldl mapUpd acc) = sumCounts acc + l.length := by
  induction l generalizing acc with
  | nil => simp
  | cons h t ih =>
    simp only [List.foldl_cons, ih, sumCounts_mapUpd, List.length_cons]
    omega

/-- C2: Aggregation conservation — for every record list and filter state,
the counts of the entity summaries built from the filtered record set sum
to the number of filtered records. -/
theorem aggregation_conservation (hits : List Hit) (f : Filters) :
    sumCounts (aggregateIps (filteredHits hits f))
      = (filteredHits hits f).length := by
  simpa [aggregateIps, sumCounts_nil] using
    sumCounts_foldl (filteredHits hits f) []

/-! ## Time-predicate facts -/

/-- C5: a record whose timestamp string did not parse (`_ts = NaN`) always
passes the time-range predicate — whatever the `[start, end]` bounds
are — and the full filter predicate does not depend on the bounds at
all for such a record. -/
theorem unparseable_ts_never_excluded (h : Hit) (hn : h.tsP = .nan)
    (f : Filters) :
    timeOk f h = true ∧
    hitMatchesFilters h f
      = hitMatchesFilters h { f with startTs := none, endTs := none } := by
  constructor
  · cases hs : f.startTs <;> cases he : f.endTs <;>
      simp [timeOk, timeLowOk, timeHighOk, hs, he, hn, tsTruthy]
  · cases hs : f.startTs <;> cases he : f.endTs <;>
      simp [hitMatchesFilters, textOk, timeLowOk, timeHighOk, hs, he, hn,
        tsTruthy]

theorem unparseable_ts_never_excluded_witness :
    (mkHit "8.8.8.8" 0 .nan none).tsP = JsNum.nan ∧
    (timeOk { openFilters with startTs := some 100, endTs := some 200 }
        (mkHit "8.8.8.8" 0 .nan none) = true ∧
      hitMatchesFilters (mkHit "8.8.8.8" 0 .nan none)
          { openFilters with startTs := some 100, endTs := some 200 }
        = hitMatchesFilters (mkHit "8.8.8.8" 0 .nan none)
            { { openFilters with startTs := some 100, endTs := some 200 }
              with startTs := none, endTs := none }) :=
  ⟨rfl, unparseable_ts_never_excluded (mkHit "8.8.8.8" 0 .nan none) rfl
    { openFilters with startTs := some 100, endTs := some 200 }⟩

/-- C9: a record whose timestamp parses to exactly `0` (the Unix epoch) is
treated by the time-range predicate like an unparseable one: the guard
tests `h._ts` for truthiness, `0` is falsy, so the record passes the time
predicate for every `[start, end]` range, including ranges that exclude
time `0`. -/
theorem epoch_zero_ts_passes (h : Hit) (h0 : h.tsP = .num 0) (f : Filters) :
    timeOk f h = true := by
  cases hs : f.startTs <;> cases he : f.endTs <;>
    simp [timeOk, timeLowOk, timeHighOk, hs, he, h0, tsTruthy]

theorem epoch_zero_ts_passes_witness :
    (mkHit "7.7.7.7" 0 (.num 0) none).tsP = JsNum.num 0 ∧
    timeOk { openFilters with startTs := some 100, endTs := some 200 }
      (mkHit "7.7.7.7" 0 (.num 0) none) = true :=
  ⟨rfl, epoch_zero_ts_passes (mkHit "7.7.7.7" 0 (.num 0) none) rfl
    { openFilters with startTs := some 100, endTs := some 200 }⟩

/-! ## Time-control normalization -/

/-- C10: after every update from the two time-range controls the stored
bounds satisfy `startTs ≤ endTs`: the two control values (with a
non-numeric value falling back to the corresponding domain bound) are
stored sorted, swapping when the controls are set in reverse order. -/
theorem updateTime_normalized (startIn endIn : JsNum) (dmin dmax : Int) :
    (updateTimeFromInputs startIn endIn dmin dmax).1
        ≤ (updateTimeFromInputs startIn endIn dmin dmax).2 ∧
    updateTimeFromInputs startIn endIn dmin dmax
      = (min (match startIn with | .nan => dmin | .num v => v)
             (match endIn with | .nan => dmax | .num v => v),
         max (match startIn with | .nan => dmin | .num v => v)
             (match endIn with | .nan => dmax | .num v => v)) := by
  cases startIn <;> cases endIn
  all_goals
    simp only [updateTimeFromInputs]
    split
    all_goals exact ⟨by omega, by simp only [Prod.mk.injEq]; omega⟩

/-! ## Filter monotonicity -/

theorem length_filter_mono {α : Type} (l : List α) (p q : α → Bool)
    (hpq : ∀ a, p a = true → q a = true) :
    (l.filter p).length ≤ (l.filter q).length := by
  induction l with
  | nil => simp
  | cons a t ih =>
    rw [List.filter_cons, List.filter_cons]
    by_cases hp : p a = true
    · rw [if_pos (by simp [hp]), if_pos (by simp [hpq a hp])]
      simp only [List.length_cons]
      omega
    · rw [if_neg (by simp [hp])]
      by_cases hq : q a = true
      · rw [if_pos (by simp [hq])]
        simp only [List.length_cons]
        omega
      · rw [if_neg (by simp [hq])]
        exact ih

/-- A record passing the filter with the narrower time range passes it with
the wider one: the text/category clauses are unchanged and the time clauses
relax. -/
theorem hitMatches_narrow (h : Hit) (f : Filters) (s1 e1 s2 e2 : Int)
    (hs : s1 ≤ s2) (he : e2 ≤ e1) :
    hitMatchesFilters h { f with startTs := some s2, endTs := some e2 } = true →
    hitMatchesFilters h { f with startTs := some s1, endTs := some e1 } = true := by
  intro hm
  simp only [hitMatchesFilters, Bool.and_eq_true] at hm ⊢
  obtain ⟨⟨⟨⟨⟨ht, hc⟩, hci⟩, hd⟩, hlo⟩, hhi⟩ := hm
  refine ⟨⟨⟨⟨⟨ht, hc⟩, hci⟩, hd⟩, ?_⟩, ?_⟩
  · cases htp : h.tsP with
    | nan => simp [timeLowOk, tsTruthy, htp]
    | num a =>
      simp only [timeLowOk, htp, tsTruthy, jsLtInt] at hlo ⊢
      by_cases ha : a = 0
      · simp [ha]
      · simp only [ha, bne_iff_ne, ne_eq, not_false_iff, Bool.true_and,
          Bool.not_eq_true', decide_eq_false_iff_not, not_lt] at hlo ⊢
        simp_all
        omega
  · cases htp : h.tsP with
    | nan => simp [timeHighOk, tsTruthy, htp]
    | num a =>
      simp only [timeHighOk, htp, tsTruthy, jsGtInt] at hhi ⊢
      by_cases ha : a = 0
      · simp [ha]
      · simp only [ha, bne_iff_ne, ne_eq, not_false_iff, Bool.true_and,
          Bool.not_eq_true', decide_eq_false_iff_not, not_lt] at hhi ⊢
        simp_all
        omega

/-- C4: time-range filter monotonicity — with the text and category filters
fixed, shrinking the time range (`s1 ≤ s2`, `e2 ≤ e1`) never increases the
filtered record count. -/
theorem time_range_monotone (hits : List Hit) (f : Filters)
    (s1 e1 s2 e2 : Int) (hs : s1 ≤ s2) (he : e2 ≤ e1) :
    (filteredHits hits { f with startTs := some s2, endTs := some e2 }).length
      ≤ (filteredHits hits { f with startTs := some s1, endTs := some e1 }).length := by
  refine length_filter_mono hits _ _ (fun h => ?_)
  exact hitMatches_narrow h f s1 e1 s2 e2 hs he

theorem time_range_monotone_witness :
    (0 : Int) ≤ 2 ∧ (2 : Int) ≤ 3 ∧
    (filteredHits demoHits
        { openFilters with startTs := some 2, endTs := some 2 }).length
      ≤ (filteredHits demoHits
          { openFilters with startTs := some 0, endTs := some 3 }).length :=
  ⟨by decide, by decide,
    time_range_monotone demoHits openFilters 0 3 2 2 (by decide) (by decide)⟩

/-! ## Zoom anchor invariant -/

/-- The algebraic heart of the anchor invariant: if a point projects to
screen abscissa `c` under zoom `z` (`A` the translated origin, `K` the
scale-free projected offset), then after the pan correction
`-(c - A) × (n/z - 1)` it projects to `c` again under zoom `n`. -/
theorem anchor_core (A K z n c : ℚ) (hz : z ≠ 0) (h : A + K * z = c) :
    A - (c - A) * (n / z - 1) + K * n = c := by
  subst h
  field_simp
  ring

/-- C3: zoom anchor invariant — for any view state with zoom in `[0.5, 6]`
and any cursor position, one wheel step (multiply by 0.9/1.1, clamp to
`[0.5, 6]`, pan correction `cursorOffsetFromCenter × (scaleChange - 1)`)
keeps the geographic point that was under the cursor exactly under the
cursor, under each projection (the raw projection family `F` is
arbitrary, so this holds for all three projections). -/
theorem zoom_anchor (F : ProjName → ℚ × ℚ → ℚ × ℚ) (w hgt r : ℚ)
    (s : ViewState) (g : ℚ × ℚ) (deltaY cx cy : ℚ)
    (hlo : 1 / 2 ≤ s.zoom) (_hhi : s.zoom ≤ 6)
    (hcur : screenPos F w hgt r s g = (cx, cy)) :
    screenPos F w hgt r (wheelStep w hgt s deltaY cx cy) g = (cx, cy) := by
  have hz : s.zoom ≠ 0 := by
    intro h0
    rw [h0] at hlo
    norm_num at hlo
  have hx := congrArg Prod.fst hcur
  have hy := congrArg Prod.snd hcur
  simp only [screenPos] at hx hy
  simp only [screenPos, wheelStep, setupProjection]
  rw [Prod.ext_iff]
  dsimp only
  constructor
  · linear_combination anchor_core (w / 2 + s.panX)
      (r * projectionScale s.projectionName * (F s.projectionName g).1)
      s.zoom
      (clampQ (s.zoom * (if deltaY > 0 then (9 : ℚ) / 10 else 11 / 10))
        (1 / 2) 6)
      cx hz (by linear_combination hx)
  · linear_combination anchor_core (hgt / 2 + s.panY)
      (r * projectionScale s.projectionName * (F s.projectionName g).2)
      s.zoom
      (clampQ (s.zoom * (if deltaY > 0 then (9 : ℚ) / 10 else 11 / 10))
        (1 / 2) 6)
      cy hz (by linear_combination hy)

theorem zoom_anchor_witness :
    (1 / 2 : ℚ) ≤ initView.zoom ∧ initView.zoom ≤ 6 ∧
    screenPos (fun _ g => g) 900 500 240 initView (0, 0) = (450, 250) ∧
    screenPos (fun _ g => g) 900 500 240
      (wheelStep 900 500 initView 5 450 250) (0, 0) = (450, 250) :=
  ⟨by norm_num [initView], by norm_num [initView],
    by norm_num [screenPos, initView, projectionScale],
    zoom_anchor (fun _ g => g) 900 500 240 initView (0, 0) 5 450 250
      (by norm_num [initView]) (by norm_num [initView])
      (by norm_num [screenPos, initView, projectionScale])⟩

/-! ## Zoom bound invariant -/

/-- The clamp in the wheel handler keeps the zoom inside `[0.5, 6]`
unconditionally. -/
theorem clampQ_bounds (v : ℚ) :
    1 / 2 ≤ clampQ v (1 / 2) 6 ∧ clampQ v (1 / 2) 6 ≤ 6 := by
  unfold clampQ
  constructor
  · exact le_max_left _ _
  · apply max_le
    · norm_num
    · exact min_le_left _ _

/-- One zoom-machine step keeps the zoom in `[0.5, 6]`: a wheel event
clamps, a projection change resets to 1. -/
theorem zStep_zoom_bounds (w h : ℚ) (s : ViewState) (e : ZEvent) :
    1 / 2 ≤ (zStep w h s e).zoom ∧ (zStep w h s e).zoom ≤ 6 := by
  cases e with
  | wheel deltaY cx cy =>
    simpa [zStep, wheelStep, setupProjection] using
      clampQ_bounds (s.zoom * (if deltaY > 0 then (9 : ℚ) / 10 else 11 / 10))
  | seltProj name =>
    refine ⟨?_, ?_⟩ <;> simp [zStep, projChange, setupProjection]
    norm_num

/-- C8: zoom bound invariant — starting from zoom = 1, after any sequence
of wheel events and projection changes the zoom factor lies in
`[0.5, 6]`. -/
theorem zoom_bounded (w h : ℚ) (s0 : ViewState) (h0 : s0.zoom = 1)
    (evs : List ZEvent) :
    1 / 2 ≤ (evs.foldl (zStep w h) s0).zoom
      ∧ (evs.foldl (zStep w h) s0).zoom ≤ 6 := by
  have base : 1 / 2 ≤ s0.zoom ∧ s0.zoom ≤ 6 := by rw [h0]; norm_num
  clear h0
  induction evs generalizing s0 with
  | nil => exact base
  | cons e t ih => exact ih (zStep w h s0 e) (zStep_zoom_bounds w h s0 e)

theorem zoom_bounded_witness :
    initView.zoom = 1 ∧
    (1 / 2 : ℚ) ≤
        (([ZEvent.wheel 5 100 100, ZEvent.seltProj .mercator,
          ZEvent.wheel (-3) 10 20].foldl (zStep 900 500) initView)).zoom ∧
      (([ZEvent.wheel 5 100 100, ZEvent.seltProj .mercator,
          ZEvent.wheel (-3) 10 20].foldl (zStep 900 500) initView)).zoom ≤ 6 :=
  ⟨rfl, zoom_bounded 900 500 initView rfl
    [ZEvent.wheel 5 100 100, ZEvent.seltProj .mercator,
      ZEvent.wheel (-3) 10 20]⟩

/-! ## Back-face culling -/

/-- C6: back-face culling — under the orthographic projection, a summary
point with defined coordinates whose rotated longitudinal offset exceeds
90°, or whose projected coordinates are non-finite, is skipped: the
`drawPoints` loop body emits no draw primitive for it (the frame's points
layer is `filterMap` of this body, so the point contributes nothing to the
frame). -/
theorem backface_culling (rotator : ℚ × ℚ → ℚ × ℚ)
    (proj : ℚ × ℚ → Option (JVal × JVal)) (p : IpEntry) (la lo : ℚ)
    (hla : p.lat = some la) (hlo : p.lon = some lo)
    (hcull : |(rotator (lo, la)).1| > 90 ∨
      (∀ x y, proj (lo, la) = some (x, y)
        → (x.isFinite && y.isFinite) = false)) :
    drawPoint .orthographic rotator proj p = none := by
  by_cases hfar : |(rotator (lo, la)).1| > 90
  · simp [drawPoint, hla, hlo, hfar]
  · rcases hcull with hfar' | hfin
    · exact absurd hfar' hfar
    · simp only [drawPoint, hla, hlo]
      rw [if_neg (by simp [hfar])]
      cases hp : proj (lo, la) with
      | none => rfl
      | some xy =>
        obtain ⟨x, y⟩ := xy
        have := hfin x y hp
        cases x with
        | undef => cases y <;> rfl
        | fin a =>
          cases y with
          | undef => rfl
          | fin b => simp [JVal.isFinite] at this

theorem backface_culling_witness :
    ({ demoEntry with lat := some 10, lon := some 20 } : IpEntry).lat
        = some 10 ∧
    ({ demoEntry with lat := some 10, lon := some 20 } : IpEntry).lon
        = some 20 ∧
    drawPoint .orthographic (fun _ => (120, 0)) (fun _ => some (.fin 1, .fin 2))
      { demoEntry with lat := some 10, lon := some 20 } = none :=
  ⟨rfl, rfl,
    backface_culling (fun _ => (120, 0)) (fun _ => some (.fin 1, .fin 2))
      { demoEntry with lat := some 10, lon := some 20 } 10 20 rfl rfl
      (Or.inl (by norm_num))⟩

/-! ## Non-rotatable projections force pan -/

/-- While a non-rotatable projection is active (`allowRotation = false`),
no pointer or animation event changes the rotation angle, and the active
projection and the `allowRotation` flag are preserved. -/
theorem pStep_keeps_rotation (t : ViewState)
    (hpn : t.projectionName ≠ .orthographic)
    (har : t.allowRotation = false) (e : PEvent) :
    (pStep t e).rotation = t.rotation ∧
    (pStep t e).projectionName = t.projectionName ∧
    (pStep t e).allowRotation = false := by
  cases e with
  | down shift x y => simp [pStep, onDown, har]
  | up => simp [pStep, onUp, har]
  | tick => simp [pStep, animateTick, har]
  | move x y =>
    simp only [pStep, onMove]
    by_cases hd : t.dragging
    · cases hlp : t.lastPos with
      | none => simp [hd, hlp, har]
      | some pos =>
        obtain ⟨lx, ly⟩ := pos
        simp only [hd, hlp, har, Bool.false_and, Bool.not_true,
          Bool.false_eq_true, if_false]
        cases hpj : t.projectionName with
        | orthographic => exact absurd hpj hpn
        | mercator => simp [setupProjection, hpj]
        | vanDerGrinten => simp [setupProjection, hpj]
    · simp [hd, har]

/-- C7: with a non-rotatable projection (mercator or vanDerGrinten)
active, every pointer-down starts a pan drag, pointer-move deltas
accumulate into the pan offset without touching the rotation angle, and no
sequence of pointer/animation events (in particular no idle tick) ever
changes the rotation angle. -/
theorem nonrotatable_pan_only (s0 : ViewState)
    (hn : s0.projectionName = .mercator
      ∨ s0.projectionName = .vanDerGrinten) :
    (∀ shift x y,
      (onDown (setupProjection s0) shift x y).dragMode = DragMode.pan) ∧
    (∀ shift x0 y0 x y,
      (onMove (onDown (setupProjection s0) shift x0 y0) x y).panX
          = s0.panX + (x - x0) ∧
      (onMove (onDown (setupProjection s0) shift x0 y0) x y).panY
          = s0.panY + (y - y0) ∧
      (onMove (onDown (setupProjection s0) shift x0 y0) x y).rotation
          = s0.rotation) ∧
    (∀ evs : List PEvent,
      (evs.foldl pStep (setupProjection s0)).rotation = s0.rotation) := by
  have hpn : s0.projectionName ≠ .orthographic := by
    rcases hn with h | h <;> simp [h]
  have hset : (setupProjection s0).allowRotation = false := by
    rcases hn with h | h <;> simp [setupProjection, h]
  refine ⟨?_, ?_, ?_⟩
  · intro shift x y
    simp [onDown, hset]
  · intro shift x0 y0 x y
    rcases hn with h | h <;>
      refine ⟨?_, ?_, ?_⟩ <;>
        simp [onMove, onDown, setupProjection, h]
  · have main : ∀ (evs : List PEvent) (t : ViewState),
        t.projectionName ≠ .orthographic → t.allowRotation = false →
        (evs.foldl pStep t).rotation = t.rotation := by
      intro evs
      induction evs with
      | nil =>
        intro t _ _
        rfl
      | cons e rest ih =>
        intro t h1 h2
        obtain ⟨hr, hp, ha⟩ := pStep_keeps_rotation t h1 h2 e
        simp only [List.foldl_cons]
        rw [ih (pStep t e) (by rw [hp]; exact h1) ha, hr]
    intro evs
    exact main evs (setupProjection s0) hpn hset

theorem nonrotatable_pan_only_witness :
    (({ initView with projectionName := ProjName.mercator }
        : ViewState).projectionName = ProjName.mercator ∨
      ({ initView with projectionName := ProjName.mercator }
        : ViewState).projectionName = ProjName.vanDerGrinten) ∧
    (onDown
        (setupProjection { initView with projectionName := ProjName.mercator })
        false 10 20).dragMode = DragMode.pan ∧
    ([PEvent.tick, PEvent.down false 1 2, PEvent.move 4 6].foldl pStep
        (setupProjection { initView with projectionName := ProjName.mercator })
      ).rotation
      = ({ initView with projectionName := ProjName.mercator }
          : ViewState).rotation :=
  ⟨Or.inl rfl,
    (nonrotatable_pan_only { initView with projectionName := ProjName.mercator }
      (Or.inl rfl)).1 false 10 20,
    (nonrotatable_pan_only { initView with projectionName := ProjName.mercator }
      (Or.inl rfl)).2.2 [PEvent.tick, PEvent.down false 1 2, PEvent.move 4 6]⟩

/-! ## First-seen / last-seen characterization of the aggregator -/

theorem findEntry_nil (k : String) : findEntry [] k = none := rfl

/-- Looking up the processed hit's own key after one loop iteration finds
the updated entry. -/
theorem findEntry_mapUpd_self (acc : List IpEntry) (h : Hit) :
    findEntry (mapUpd acc h) h.ip = some (applyHit (findEntry acc h.ip) h) := by
  induction acc with
  | nil => simp [mapUpd, findEntry, applyHit, updateEntry, freshEntry]
  | cons e rest ih =>
    by_cases hc : e.ip = h.ip
    · simp [mapUpd, hc, findEntry, applyHit, updateEntry]
    · simp [mapUpd, hc, findEntry, ih]

/-- A loop iteration on a hit with a different key leaves a lookup
unchanged. -/
theorem findEntry_mapUpd_other (acc : List IpEntry) (h : Hit) (k : String)
    (hk : k ≠ h.ip) :
    findEntry (mapUpd acc h) k = findEntry acc k := by
  have hik : h.ip ≠ k := fun he => hk he.symm
  induction acc with
  | nil => simp [mapUpd, findEntry, updateEntry, freshEntry, hik]
  | cons e rest ih =>
    by_cases hc : e.ip = h.ip
    · simp [mapUpd, hc, findEntry, updateEntry, hik]
    · simp [mapUpd, hc, findEntry, ih]

/-- Folding the aggregation loop over a hit list and then looking up a key
is the same as folding the per-key update over just that key's hits. -/
theorem findEntry_foldl (l : List Hit) (acc : List IpEntry) (k : String) :
    findEntry (l.foldl mapUpd acc) k
      = (keyHits l k).foldl (fun o h => some (applyHit o h))
          (findEntry acc k) := by
  induction l generalizing acc with
  | nil => rfl
  | cons h t ih =>
    by_cases hk : h.ip = k
    · have h1 : findEntry (mapUpd acc h) k
          = some (applyHit (findEntry acc k) h) := by
        rw [← hk]
        exact findEntry_mapUpd_self acc h
      simp only [List.foldl_cons, keyHits, List.filter_cons, hk]
      rw [if_pos (by simp)]
      simp only [List.foldl_cons]
      rw [ih (mapUpd acc h), h1]
      rfl
    · have h1 := findEntry_mapUpd_other acc h k (fun he => hk he.symm)
      simp only [List.foldl_cons, keyHits, List.filter_cons]
      rw [if_neg (by simp [hk])]
      rw [ih (mapUpd acc h), h1]
      rfl

/-- Once an entry exists, the option-level fold is the plain
`updateEntry` fold. -/
theorem foldl_applyHit_some (hs : List Hit) (e : IpEntry) :
    hs.foldl (fun o h => some (applyHit o h)) (some e)
      = some (hs.foldl updateEntry e) := by
  induction hs generalizing e with
  | nil => rfl
  | cons h t ih => exact ih (updateEntry e h)

theorem foldl_updateEntry_first (hs : List Hit) (e : IpEntry) :
    (hs.foldl updateEntry e).first_seen = e.first_seen := by
  induction hs generalizing e with
  | nil => rfl
  | cons h t ih => simp only [List.foldl_cons, ih, updateEntry]

theorem foldl_updateEntry_last (hs : List Hit) (e : IpEntry) :
    (hs.foldl updateEntry e).last_seen
      = hs.foldl (fun _ h => h.ts) e.last_seen := by
  induction hs generalizing e with
  | nil => rfl
  | cons h t ih => simp only [List.foldl_cons, ih, updateEntry]

theorem foldl_updateEntry_count (hs : List Hit) (e : IpEntry) :
    (hs.foldl updateEntry e).count = e.count + hs.length := by
  induction hs generalizing e with
  | nil => rfl
  | cons h t ih =>
    simp only [List.foldl_cons, ih, updateEntry, List.length_cons]
    omega

/-- The timestamp of the last element of a non-empty list, as a fold. -/
theorem getLast_ts_foldl (l : List Hit) (h0 : Hit) :
    ((h0 :: l).getLast?.map (·.ts))
      = some (l.foldl (fun _ h => h.ts) h0.ts) := by
  induction l generalizing h0 with
  | nil => rfl
  | cons h t ih =>
    rw [List.getLast?_cons_cons, ih h]
    rfl

/-- C1 (amended): for every record list and every identity key occurring in
it, the aggregated entry's `first_seen` is the timestamp of the key's
*first* record in input order and `last_seen` the timestamp of the key's
*last* record in input order (and `count` the number of the key's
records).  These coincide with the min/max of the key's timestamps exactly
when each key's records arrive in nondecreasing timestamp order, but not
for arbitrary input order. -/
theorem aggregate_first_last (hits : List Hit) (k : String) (e : IpEntry)
    (hfind : findEntry (aggregateIps hits) k = some e) :
    (keyHits hits k).head?.map (·.ts) = some e.first_seen ∧
    (keyHits hits k).getLast?.map (·.ts) = some e.last_seen ∧
    (keyHits hits k).length = e.count := by
  rw [aggregateIps, findEntry_foldl, findEntry_nil] at hfind
  cases hkh : keyHits hits k with
  | nil =>
    rw [hkh] at hfind
    simp at hfind
  | cons h0 hs =>
    rw [hkh] at hfind
    simp only [List.foldl_cons] at hfind
    rw [foldl_applyHit_some] at hfind
    have he : e = hs.foldl updateEntry (applyHit none h0) :=
      (Option.some.inj hfind).symm
    subst he
    refine ⟨?_, ?_, ?_⟩
    · rw [foldl_updateEntry_first]
      rfl
    · rw [foldl_updateEntry_last, getLast_ts_foldl]
      rfl
    · rw [foldl_updateEntry_count]
      simp only [List.length_cons, applyHit, updateEntry, freshEntry]
      omega

theorem aggregate_first_last_witness :
    findEntry (aggregateIps demoHits) "1.2.3.4" = some demoEntry ∧
    ((keyHits demoHits "1.2.3.4").head?.map (·.ts)
        = some demoEntry.first_seen ∧
      (keyHits demoHits "1.2.3.4").getLast?.map (·.ts)
        = some demoEntry.last_seen ∧
      (keyHits demoHits "1.2.3.4").length = demoEntry.count) :=
  ⟨by decide, aggregate_first_last demoHits "1.2.3.4" demoEntry (by decide)⟩

/-- C1 counterexample: on two records for key `9.9.9.9` whose timestamps
arrive in decreasing order (5 then 3), the aggregator reports
`first_seen = 5` and `last_seen = 3`, while the minimum of the key's
timestamps is 3 and the maximum is 5 — so `first_seen`/`last_seen` are
*not* a min/max reduction independent of input order. -/
theorem aggregate_minmax_cex :
    (aggregateIps cexHits).map (fun e => (e.ip, e.first_seen, e.last_seen))
        = [("9.9.9.9", 5, 3)] ∧
    (keyHits cexHits "9.9.9.9").map (·.ts) = [5, 3] ∧
    (5 : Int) ≠ min 5 3 ∧ (3 : Int) ≠ max 5 3 := by
  decide

end AccessViz
